import Mathlib

/-!
Shallow embedding of the VarQITE notebook (src/QML/Session3.ipynb).

The exact state-vector simulator behind `op.assign_parameters(d).eval()` is an
external collaborator; it is modelled as a black-box evaluation function
`eval : (Fin n → ℝ) → ℂ` from a full parameter binding to the complex scalar
the simulator returns.  The parameter dictionary
`dict(zip(ansatz.ordered_parameters, values))` is modelled as a function
`Fin n → ℝ`; the in-place mutation `parameter_dict[param] += x` is the state
transformer `shiftAt param x`, and the mutated dictionary is threaded
explicitly through every loop, exactly in the source's statement order.
-/

namespace VarQITE

/-- `parameter_dict[k] += δ` : the in-place shift of one entry of the
parameter dictionary. -/
noncomputable def shiftAt {n : ℕ} (k : Fin n) (δ : ℝ) (θ : Fin n → ℝ) : Fin n → ℝ :=
  Function.update θ k (θ k + δ)

/-! ### GradientEstimator (`gradient`, notebook cell 16)

```python
def gradient(op, parameter_dict):
    gradient = []
    for param in list(parameter_dict.keys()):
        parameter_dict[param] += np.pi/2
        p_shift = op.assign_parameters(parameter_dict).eval()
        parameter_dict[param] -= np.pi
        m_shift = op.assign_parameters(parameter_dict).eval()
        parameter_dict[param] += np.pi /2
        gradient += [0.5 * (p_shift - m_shift)]
    return gradient
```
-/

/-- One iteration of the `gradient` loop body: shift, evaluate, shift back,
evaluate, restore; returns the appended component and the dictionary state
after the iteration. -/
noncomputable def gradStep {n : ℕ} (eval : (Fin n → ℝ) → ℂ) (θ : Fin n → ℝ)
    (k : Fin n) : ℂ × (Fin n → ℝ) :=
  let d1 := shiftAt k (Real.pi / 2) θ
  let p_shift := eval d1
  let d2 := shiftAt k (-Real.pi) d1
  let m_shift := eval d2
  (0.5 * (p_shift - m_shift), shiftAt k (Real.pi / 2) d2)

/-- The `for param in list(parameter_dict.keys())` loop, threading the mutable
dictionary; returns the accumulated list and the final dictionary. -/
noncomputable def gradLoop {n : ℕ} (eval : (Fin n → ℝ) → ℂ) :
    List (Fin n) → (Fin n → ℝ) → List ℂ × (Fin n → ℝ)
  | [], θ => ([], θ)
  | k :: ks, θ =>
    let s := gradStep eval θ k
    let r := gradLoop eval ks s.2
    (s.1 :: r.1, r.2)

/-- `gradient(op, parameter_dict)` : the returned list, iterating over the
parameters in their dictionary order. -/
noncomputable def gradient {n : ℕ} (eval : (Fin n → ℝ) → ℂ) (θ : Fin n → ℝ) :
    List ℂ :=
  (gradLoop eval (List.finRange n) θ).1

/-- The dictionary as the `gradient` call leaves it. -/
noncomputable def gradientDictAfter {n : ℕ} (eval : (Fin n → ℝ) → ℂ)
    (θ : Fin n → ℝ) : Fin n → ℝ :=
  (gradLoop eval (List.finRange n) θ).2

/-! ### MetricTensorEstimator (`QFI`, notebook cell 18)

```python
def QFI(state_op, parameter_dict):
    meas = ~state_op.assign_parameters(parameter_dict)
    qfi = np.zeros((len(parameter_dict), len(parameter_dict)))
    for i, param_i in enumerate(list(parameter_dict.keys())):
        for j, param_j in enumerate(list(parameter_dict.keys())):
            parameter_dict[param_i] += np.pi /2
            parameter_dict[param_j] += np.pi /2
            qfi[i, j] += (meas @ state_op.assign_parameters(parameter_dict)).eval() / 4
            parameter_dict[param_j] -= np.pi
            qfi[i, j] -= (meas @ state_op.assign_parameters(parameter_dict)).eval() / 4
            parameter_dict[param_i] -= np.pi
            qfi[i, j] += (meas @ state_op.assign_parameters(parameter_dict)).eval() / 4
            parameter_dict[param_j] += np.pi
            qfi[i, j] -= (meas @ state_op.assign_parameters(parameter_dict)).eval() / 4
            parameter_dict[param_i] += np.pi/2
            parameter_dict[param_j] -= np.pi/2
    return(qfi)
```

`meas` is built from the dictionary before any mutation, so the overlap
evaluator `eval` (measurement fixed at the unshifted parameters, only the
second state rebound) is a single black-box function of the mutated
dictionary.  Accumulating a complex scalar into the real array `qfi`
discards its imaginary part (numpy casts complex to real on the in-place
update), hence the `.re` at every accumulation. -/

/-- The body of the inner `QFI` loop for the ordered index pair `(i, j)`:
the four shift/evaluate/accumulate steps followed by the two restoring
shifts, threading the mutable dictionary.  Returns the accumulated entry and
the dictionary state after the iteration. -/
noncomputable def QFIcell {n : ℕ} (eval : (Fin n → ℝ) → ℂ) (θ : Fin n → ℝ)
    (i j : Fin n) : ℝ × (Fin n → ℝ) :=
  let d1 := shiftAt i (Real.pi / 2) θ
  let d2 := shiftAt j (Real.pi / 2) d1
  let a := (eval d2).re / 4
  let d3 := shiftAt j (-Real.pi) d2
  let b := (eval d3).re / 4
  let d4 := shiftAt i (-Real.pi) d3
  let c := (eval d4).re / 4
  let d5 := shiftAt j Real.pi d4
  let e := (eval d5).re / 4
  (a - b + c - e, shiftAt j (-(Real.pi / 2)) (shiftAt i (Real.pi / 2) d5))

/-- `qfi[i, j] += v` on the accumulator array (each pair is visited once, so
the `+=` on the zero-initialised array writes the entry). -/
def QFIupdate {n : ℕ} (M : Matrix (Fin n) (Fin n) ℝ) (i j : Fin n) (v : ℝ) :
    Matrix (Fin n) (Fin n) ℝ :=
  fun a b => if a = i ∧ b = j then M a b + v else M a b

/-- The doubly nested `QFI` loop, row-major over the ordered index pairs,
threading the array and the mutable dictionary. -/
noncomputable def QFIfold {n : ℕ} (eval : (Fin n → ℝ) → ℂ) :
    List (Fin n × Fin n) → Matrix (Fin n) (Fin n) ℝ × (Fin n → ℝ) →
      Matrix (Fin n) (Fin n) ℝ × (Fin n → ℝ)
  | [], s => s
  | p :: ps, s =>
    let c := QFIcell eval s.2 p.1 p.2
    QFIfold eval ps (QFIupdate s.1 p.1 p.2 c.1, c.2)

/-- The row-major list of ordered index pairs visited by the two `for`
loops. -/
def QFIpairs (n : ℕ) : List (Fin n × Fin n) :=
  (List.finRange n).product (List.finRange n)

/-- `QFI(state_op, parameter_dict)` : the returned array together with the
dictionary state after the call. -/
noncomputable def QFI {n : ℕ} (eval : (Fin n → ℝ) → ℂ) (θ : Fin n → ℝ) :
    Matrix (Fin n) (Fin n) ℝ × (Fin n → ℝ) :=
  QFIfold eval (QFIpairs n) (fun _ _ => 0, θ)

/-- The metric tensor the estimator returns. -/
noncomputable def QFImat {n : ℕ} (eval : (Fin n → ℝ) → ℂ) (θ : Fin n → ℝ) :
    Matrix (Fin n) (Fin n) ℝ :=
  (QFI eval θ).1

/-- The parameter dictionary as the `QFI` call leaves it. -/
noncomputable def QFIdictAfter {n : ℕ} (eval : (Fin n → ℝ) → ℂ)
    (θ : Fin n → ℝ) : Fin n → ℝ :=
  (QFI eval θ).2

/-- The dictionary holding `θ` with component `i` shifted by `s` and then
component `j` shifted by `t` (for `i ≠ j`, the two components shifted
independently; for `i = j`, the compounded shift of the one component). -/
noncomputable def shift2 {n : ℕ} (θ : Fin n → ℝ) (i j : Fin n) (s t : ℝ) :
    Fin n → ℝ :=
  shiftAt j t (shiftAt i s θ)

/-- Occurrence count of an element in a list (used to account for the
`+=` accumulation in the `QFI` array). -/
def pairCount {α : Type} [DecidableEq α] (p : α) : List α → ℕ
  | [] => 0
  | q :: qs => (if p = q then 1 else 0) + pairCount p qs

/-! ### NaturalGradientSolver (`QNG`, notebook cell 20)

```python
def QNG(op, state_op, parameter_dict):
    grad = gradient(op, parameter_dict)
    qfi = QFI(state_op, parameter_dict)
    alpha = 1e-8
    qng, _, _, _ = np.linalg.lstsq(qfi + alpha * np.diag(qfi), grad, rcond=None)
    return qng
```

`np.diag(qfi)` on the two-dimensional array `qfi` is the one-dimensional
vector of its diagonal entries; the sum `qfi + alpha * np.diag(qfi)`
broadcasts that vector across the rows, so entry `(i, j)` of the matrix
handed to the solver is `qfi[i, j] + alpha * qfi[j, j]`.  `np.linalg.lstsq`
is the external library solver; it is modelled as a black-box function
`lstsq` together with the predicate `IsMinNormLS` stating its documented
semantics (least-squares solution of minimum norm). -/

/-- The fixed Tikhonov coefficient `alpha = 1e-8` (exact value). -/
noncomputable def alphaReg : ℝ := 1 / 100000000

/-- `qfi + alpha * np.diag(qfi)` : numpy broadcasts the diagonal vector
across the rows, adding `alpha * M[j][j]` to every entry of column `j`. -/
noncomputable def regCode {n : ℕ} (M : Matrix (Fin n) (Fin n) ℝ) :
    Matrix (Fin n) (Fin n) ℝ :=
  fun i j => M i j + alphaReg * M j j

/-- Modelled from the spec's words for comparison with `regCode`: the
regularizer added only along the diagonal, each diagonal entry scaled by
itself, every off-diagonal entry left unchanged. -/
noncomputable def regSpec {n : ℕ} (M : Matrix (Fin n) (Fin n) ℝ) :
    Matrix (Fin n) (Fin n) ℝ :=
  fun i j => if i = j then M i j + alphaReg * M i j else M i j

/-- Squared Euclidean residual of `x` for the system `A x = g`. -/
noncomputable def lsErr {n : ℕ} (A : Matrix (Fin n) (Fin n) ℝ)
    (g x : Fin n → ℝ) : ℝ :=
  ∑ r, (A.mulVec x r - g r) ^ 2

/-- Squared Euclidean norm. -/
noncomputable def sqNorm {n : ℕ} (x : Fin n → ℝ) : ℝ :=
  ∑ r, x r ^ 2

/-- `x` is a least-squares solution of `A x = g`. -/
def IsLS {n : ℕ} (A : Matrix (Fin n) (Fin n) ℝ) (g x : Fin n → ℝ) : Prop :=
  ∀ y, lsErr A g x ≤ lsErr A g y

/-- `x` is a minimum-norm least-squares solution of `A x = g` — the
documented semantics of `np.linalg.lstsq` with `rcond=None`. -/
def IsMinNormLS {n : ℕ} (A : Matrix (Fin n) (Fin n) ℝ) (g x : Fin n → ℝ) :
    Prop :=
  IsLS A g x ∧ ∀ y, IsLS A g y → sqNorm x ≤ sqNorm y

/-- The solve stage of `QNG`, with the gradient vector and the metric
tensor as inputs (its first two lines recompute them through `gradient` and
`QFI`) and the library solver abstracted as `lstsq`. -/
noncomputable def QNG {n : ℕ}
    (lstsq : Matrix (Fin n) (Fin n) ℝ → (Fin n → ℝ) → (Fin n → ℝ))
    (g : Fin n → ℝ) (M : Matrix (Fin n) (Fin n) ℝ) : Fin n → ℝ :=
  lstsq (regCode M) g

/-- A concrete minimum-norm least-squares solver for 1×1 systems, used to
instantiate the black-box `lstsq` in witnesses. -/
noncomputable def lstsqDim1 (A : Matrix (Fin 1) (Fin 1) ℝ) (g : Fin 1 → ℝ) :
    Fin 1 → ℝ :=
  fun _ => if A 0 0 = 0 then 0 else g 0 / A 0 0

/-! ### VarQITEIntegrator (`get_gibbs_state_params`, notebook cell 22)

```python
def get_gibbs_state_params(op, ansatz, param_values, time_steps):
    for step in time_steps:
        param_dict = dict(zip(ansatz.ordered_parameters, param_values))
        nat_grad_result = np.real(QNG(op, ansatz_op, param_dict))
        param_values = list(np.subtract(param_values, t/num_time_steps * nat_grad_result))
    return param_values
```

The loop body never reads the loop variable `step`; the step size is
`t / num_time_steps`, where `t` and `num_time_steps` are module-level
globals (`t = 1/(2*k_BT)`, `num_time_steps = 10`), not derived from the
supplied `time_steps` grid.  The whole natural-gradient pipeline
`QNG(op, ansatz_op, param_dict)` for the current parameter values is
abstracted as the black box `qng`; `t` and `num_time_steps` are explicit
arguments of the embedding so that the ambient global state the code reads
is visible in the model. -/

/-- `get_gibbs_state_params(op, ansatz, param_values, time_steps)` run under
ambient globals `t` and `num_time_steps`. -/
noncomputable def get_gibbs_state_params {n : ℕ} (t : ℝ) (num_time_steps : ℕ)
    (qng : (Fin n → ℝ) → Fin n → ℂ) (param_values : Fin n → ℝ)
    (time_steps : List ℝ) : Fin n → ℝ :=
  time_steps.foldl
    (fun pv _step => fun k => pv k - t / (num_time_steps : ℝ) * (qng pv k).re)
    param_values

/-- One explicit-Euler update with step size `Δ`. -/
noncomputable def eulerStep {n : ℕ} (Δ : ℝ) (qng : (Fin n → ℝ) → Fin n → ℂ)
    (pv : Fin n → ℝ) : Fin n → ℝ :=
  fun k => pv k - Δ * (qng pv k).re

/-- Modelled from the spec's words for comparison with
`get_gibbs_state_params`: one explicit-Euler update per consecutive pair of
grid points, with the step size taken as the spacing of the supplied
grid. -/
noncomputable def specPropagate {n : ℕ} (qng : (Fin n → ℝ) → Fin n → ℂ) :
    (Fin n → ℝ) → List ℝ → Fin n → ℝ
  | θ, t0 :: t1 :: rest =>
    specPropagate qng (fun k => θ k - (t1 - t0) * (qng θ k).re) (t1 :: rest)
  | θ, _ => θ

/-! ### GibbsTrainer loss (`loss`, notebook cell 31)

```python
def loss(H_coeffs):
    ...
    p_qbm = np.diag(partial_trace(...).data)
    loss_fn = -np.sum(np.multiply(p_target, np.log(p_qbm)))
    return np.real(loss_fn)
```

The VarQITE pipeline producing the model probability vector `p_qbm` is a
black box; `loss` is modelled on the resulting vectors.  `np.log` is
undefined on non-positive inputs (the log singularity), so the fallible
evaluation returns an `Option`: `none` models the failure propagating to
the caller, and the code contains no handler or retry around the call. -/

/-- The cross-entropy loss evaluation on the target distribution and the
model probability vector. -/
noncomputable def loss {m : ℕ} (p_target p_qbm : Fin m → ℝ) : Option ℝ :=
  if ∀ r, 0 < p_qbm r then some (-∑ r, p_target r * Real.log (p_qbm r))
  else none

/-! ### Parameter binding (`dict(zip(ansatz.ordered_parameters, param_values))`)

Every evaluation in the notebook binds parameters through
`op.assign_parameters(dict(zip(ansatz.ordered_parameters, param_values)))`
followed by `.eval()`.  Python's `zip` truncates to the shorter of its two
arguments, so a `param_values` longer than the parameter list is silently
cut down to the first `n` entries; a shorter one leaves ansatz parameters
unbound, and evaluating a circuit with unbound parameters fails.  `f` is
the black-box evaluation of the bound operator on a full binding. -/


/-- `op.assign_parameters(dict(zip(ansatz.ordered_parameters, param_values))).eval()`
for an ansatz with `n` ordered parameters. -/
noncomputable def bindEval {n : ℕ} (f : (Fin n → ℝ) → ℂ)
    (param_values : List ℝ) : Option ℂ :=
  if h : n ≤ param_values.length then
    some (f fun k => param_values.get ⟨k.1, lt_of_lt_of_le k.2 h⟩)
  else none

/-! ## Concrete instances used by counterexamples and witnesses -/


/-- An overlap evaluator with `⟨ψ(θ)|ψ(θ + s)⟩`-slot value `s₀ · s₁`; used
to separate the two candidate stencils (the black-box evaluation is
unconstrained by the estimator's code). -/
noncomputable def evalC1 : (Fin 2 → ℝ) → ℂ :=
  fun v => Complex.ofReal (v 0 * v 1)

/-- The all-zero dictionary on two parameters. -/
def thetaZero2 : Fin 2 → ℝ := fun _ => 0

/-- The four-term stencil exactly as the claim states it: weights
`+¼, -¼, +¼, -¼` on the shift pairs `(+π/2, +π/2)`, `(+π/2, -π/2)`,
`(-π/2, +π/2)`, `(-π/2, -π/2)` — modelled from the spec's words for
comparison with the code's `QFIcell`. -/
noncomputable def QFIclaimStencil {n : ℕ} (eval : (Fin n → ℝ) → ℂ)
    (θ : Fin n → ℝ) (i j : Fin n) : ℝ :=
  (eval (shift2 θ i j (Real.pi / 2) (Real.pi / 2))).re / 4
    - (eval (shift2 θ i j (Real.pi / 2) (-(Real.pi / 2)))).re / 4
    + (eval (shift2 θ i j (-(Real.pi / 2)) (Real.pi / 2))).re / 4
    - (eval (shift2 θ i j (-(Real.pi / 2)) (-(Real.pi / 2)))).re / 4

/-- The overlap evaluator of the one-parameter circuit `RX(θ)` on `|0⟩`
against the fixed bra at `θ = 0`: `⟨0|RX(v)|0⟩ = cos(v/2)`. -/
noncomputable def evalC5 : (Fin 1 → ℝ) → ℂ :=
  fun v => Complex.ofReal (Real.cos (v 0 / 2))

/-- The all-zero dictionary on one parameter. -/
def thetaZero1 : Fin 1 → ℝ := fun _ => 0

/-- The natural-gradient black box returning the current parameter value
itself (a state-dependent direction separating step-size conventions). -/
noncomputable def qngId : (Fin 1 → ℝ) → Fin 1 → ℂ :=
  fun pv k => Complex.ofReal (pv k)

/-- The constant natural-gradient black box. -/
noncomputable def qngConst : (Fin 1 → ℝ) → Fin 1 → ℂ := fun _ _ => 1

/-- The all-one dictionary on one parameter. -/
def thetaOne1 : Fin 1 → ℝ := fun _ => 1

/-- The notebook's target distribution `[0.5, 0, 0, 0.5]`. -/
noncomputable def pTargetQBM : Fin 4 → ℝ :=
  fun r => if r = 0 ∨ r = 3 then 1 / 2 else 0

/-- A model probability vector with a vanishing entry. -/
noncomputable def pModelZero : Fin 4 → ℝ := fun r => if r = 1 then 0 else 1 / 3

/-- Evaluation black box for a one-parameter ansatz. -/
noncomputable def fC7 : (Fin 1 → ℝ) → ℂ := fun v => Complex.ofReal (v 0)

/-- The diagonal test matrix `[[1, 0], [0, 2]]` for the solver claim. -/
def MdiagC3 : Matrix (Fin 2) (Fin 2) ℝ := !![1, 0; 0, 2]

/-- The right-hand side `(1, 0)` for the solver claim. -/
def gC3 : Fin 2 → ℝ := ![1, 0]

/-- A 1×1 matrix and right-hand side for the solver witness. -/
def MdimW : Matrix (Fin 1) (Fin 1) ℝ := fun _ _ => 2

/-- Right-hand side for the solver witness. -/
def gdimW : Fin 1 → ℝ := fun _ => 3

/-! ## Theorems -/

theorem shiftAt_shiftAt {n : ℕ} (k : Fin n) (a b : ℝ) (θ : Fin n → ℝ) :
    shiftAt k a (shiftAt k b θ) = shiftAt k (b + a) θ := by
  unfold shiftAt
  rw [Function.update_idem, Function.update_same, add_assoc]

theorem shiftAt_zero {n : ℕ} (k : Fin n) (θ : Fin n → ℝ) : shiftAt k 0 θ = θ := by
  unfold shiftAt
  rw [add_zero, Function.update_eq_self]

theorem shiftAt_comm {n : ℕ} (k l : Fin n) (a b : ℝ) (θ : Fin n → ℝ) :
    shiftAt k a (shiftAt l b θ) = shiftAt l b (shiftAt k a θ) := by
  rcases eq_or_ne k l with rfl | h
  · rw [shiftAt_shiftAt, shiftAt_shiftAt, add_comm]
  · unfold shiftAt
    rw [Function.update_noteq h, Function.update_noteq h.symm,
      Function.update_comm h]

theorem gradStep_fst {n : ℕ} (eval : (Fin n → ℝ) → ℂ) (θ : Fin n → ℝ)
    (k : Fin n) :
    (gradStep eval θ k).1 =
      0.5 * (eval (shiftAt k (Real.pi / 2) θ) - eval (shiftAt k (-(Real.pi / 2)) θ)) := by
  simp only [gradStep]
  rw [shiftAt_shiftAt]
  have h : Real.pi / 2 + -Real.pi = -(Real.pi / 2) := by ring
  rw [h]

theorem gradStep_snd {n : ℕ} (eval : (Fin n → ℝ) → ℂ) (θ : Fin n → ℝ)
    (k : Fin n) : (gradStep eval θ k).2 = θ := by
  simp only [gradStep]
  rw [shiftAt_shiftAt, shiftAt_shiftAt]
  have h : Real.pi / 2 + (-Real.pi + Real.pi / 2) = 0 := by ring
  rw [h, shiftAt_zero]

theorem gradLoop_eq {n : ℕ} (eval : (Fin n → ℝ) → ℂ) (ks : List (Fin n))
    (θ : Fin n → ℝ) :
    gradLoop eval ks θ = (ks.map fun k => (gradStep eval θ k).1, θ) := by
  induction ks with
  | nil => rfl
  | cons k ks ih =>
    show (_, _) = _
    rw [gradStep_snd, ih]
    rfl

theorem shift2_swap {n : ℕ} (θ : Fin n → ℝ) (i j : Fin n) (s t : ℝ) :
    shift2 θ i j s t = shift2 θ j i t s :=
  shiftAt_comm j i t s θ

/-- Normal form of the dictionary after the first `-= np.pi` of a `QFI`
pass. -/
theorem QFId3 {n : ℕ} (θ : Fin n → ℝ) (i j : Fin n) :
    shiftAt j (-Real.pi) (shiftAt j (Real.pi / 2) (shiftAt i (Real.pi / 2) θ))
      = shiftAt j (-(Real.pi / 2)) (shiftAt i (Real.pi / 2) θ) := by
  rw [shiftAt_shiftAt]
  have h : Real.pi / 2 + -Real.pi = -(Real.pi / 2) := by ring
  rw [h]

/-- Normal form of the dictionary after the second `-= np.pi` of a `QFI`
pass. -/
theorem QFId4 {n : ℕ} (θ : Fin n → ℝ) (i j : Fin n) :
    shiftAt i (-Real.pi) (shiftAt j (-(Real.pi / 2)) (shiftAt i (Real.pi / 2) θ))
      = shiftAt j (-(Real.pi / 2)) (shiftAt i (-(Real.pi / 2)) θ) := by
  rw [shiftAt_comm i j (-Real.pi) (-(Real.pi / 2)), shiftAt_shiftAt]
  have h : Real.pi / 2 + -Real.pi = -(Real.pi / 2) := by ring
  rw [h]

/-- Normal form of the dictionary after the `+= np.pi` of a `QFI` pass. -/
theorem QFId5 {n : ℕ} (θ : Fin n → ℝ) (i j : Fin n) :
    shiftAt j Real.pi (shiftAt j (-(Real.pi / 2)) (shiftAt i (-(Real.pi / 2)) θ))
      = shiftAt j (Real.pi / 2) (shiftAt i (-(Real.pi / 2)) θ) := by
  rw [shiftAt_shiftAt]
  have h : -(Real.pi / 2) + Real.pi = Real.pi / 2 := by ring
  rw [h]

/-- Each pass of the inner `QFI` loop restores the dictionary exactly,
including the diagonal pass where both indices name the same parameter. -/
theorem QFIcell_snd {n : ℕ} (eval : (Fin n → ℝ) → ℂ) (θ : Fin n → ℝ)
    (i j : Fin n) : (QFIcell eval θ i j).2 = θ := by
  simp only [QFIcell]
  rw [QFId3, QFId4, QFId5, shiftAt_comm i j (Real.pi / 2) (Real.pi / 2),
    shiftAt_shiftAt j, shiftAt_shiftAt i]
  have hj : Real.pi / 2 + -(Real.pi / 2) = 0 := by ring
  have hi : -(Real.pi / 2) + Real.pi / 2 = 0 := by ring
  rw [hj, hi, shiftAt_zero, shiftAt_zero]

/-- The value accumulated for the ordered pair `(i, j)`: the four-term
stencil, with the two negative-`i`-shift evaluations sitting at
`(-π/2, -π/2)` (added) and `(-π/2, +π/2)` (subtracted). -/
theorem QFIcell_fst {n : ℕ} (eval : (Fin n → ℝ) → ℂ) (θ : Fin n → ℝ)
    (i j : Fin n) :
    (QFIcell eval θ i j).1 =
      (eval (shift2 θ i j (Real.pi / 2) (Real.pi / 2))).re / 4
        - (eval (shift2 θ i j (Real.pi / 2) (-(Real.pi / 2)))).re / 4
        + (eval (shift2 θ i j (-(Real.pi / 2)) (-(Real.pi / 2)))).re / 4
        - (eval (shift2 θ i j (-(Real.pi / 2)) (Real.pi / 2))).re / 4 := by
  simp only [QFIcell, shift2]
  rw [QFId3, QFId4, QFId5]

/-- The dictionary is restored by every prefix of the pair list, so the
final dictionary equals the initial one. -/
theorem QFIfold_snd {n : ℕ} (eval : (Fin n → ℝ) → ℂ)
    (ps : List (Fin n × Fin n)) (M : Matrix (Fin n) (Fin n) ℝ)
    (θ : Fin n → ℝ) : (QFIfold eval ps (M, θ)).2 = θ := by
  induction ps generalizing M with
  | nil => rfl
  | cons p ps ih =>
    show (QFIfold eval ps (_, (QFIcell eval θ p.1 p.2).2)).2 = θ
    rw [QFIcell_snd]
    exact ih _

theorem pairCount_eq {α : Type} [DecidableEq α] (p : α) (ps : List α) :
    pairCount p ps = @List.count α instBEqOfDecidableEq p ps := by
  induction ps with
  | nil => rfl
  | cons q qs ih =>
    rw [List.count_cons, pairCount, ih]
    simp only [beq_iff_eq]
    rcases eq_or_ne p q with rfl | h
    · simp only [if_pos rfl]
      omega
    · rw [if_neg h, if_neg (Ne.symm h)]
      omega

/-- Running the fold from dictionary `θ` accumulates, into each array entry,
one stencil value per occurrence of its index pair — always evaluated at
`θ`, since every pass restores the dictionary. -/
theorem QFIfold_fst_apply {n : ℕ} (eval : (Fin n → ℝ) → ℂ)
    (ps : List (Fin n × Fin n)) (M : Matrix (Fin n) (Fin n) ℝ)
    (θ : Fin n → ℝ) (a b : Fin n) :
    (QFIfold eval ps (M, θ)).1 a b =
      M a b + (pairCount (a, b) ps : ℝ) * (QFIcell eval θ a b).1 := by
  induction ps generalizing M with
  | nil => simp [QFIfold, pairCount]
  | cons p ps ih =>
    show (QFIfold eval ps (QFIupdate M p.1 p.2 (QFIcell eval θ p.1 p.2).1,
      (QFIcell eval θ p.1 p.2).2)).1 a b = _
    rw [QFIcell_snd, ih, pairCount]
    rcases eq_or_ne (a, b) p with rfl | hne
    · simp only [QFIupdate, and_self, if_true, if_pos rfl]
      push_cast
      ring
    · rw [if_neg hne]
      have h2 : ¬(a = p.1 ∧ b = p.2) := by
        intro h
        exact hne (Prod.ext h.1 h.2)
      simp only [QFIupdate, h2, if_false, zero_add]

theorem QFIpairs_count {n : ℕ} (a b : Fin n) :
    pairCount (a, b) (QFIpairs n) = 1 := by
  rw [pairCount_eq]
  have d : (QFIpairs n).Nodup :=
    List.Nodup.product (List.nodup_finRange n) (List.nodup_finRange n)
  have h : (a, b) ∈ QFIpairs n :=
    List.mem_product.mpr ⟨List.mem_finRange a, List.mem_finRange b⟩
  exact List.count_eq_one_of_mem d h

/-- Entry `(i, j)` of the returned array is the stencil value for the
ordered pair `(i, j)`, evaluated at the original dictionary. -/
theorem QFImat_apply {n : ℕ} (eval : (Fin n → ℝ) → ℂ) (θ : Fin n → ℝ)
    (i j : Fin n) : QFImat eval θ i j = (QFIcell eval θ i j).1 := by
  rw [QFImat, QFI, QFIfold_fst_apply, QFIpairs_count]
  push_cast
  ring

/-! ## Claim theorems -/


/-- C1, counterexample.  The claim's stencil puts weight `+¼` on the
`(k: -π/2, l: +π/2)` overlap and `-¼` on `(k: -π/2, l: -π/2)`; the code
(`QFI`, cell 18) evaluates its third, added term after `param_j -= np.pi`
**and** `param_i -= np.pi`, i.e. at `(k: -π/2, l: -π/2)`, and its fourth,
subtracted term at `(k: -π/2, l: +π/2)` — the opposite signs.  At the
concrete evaluator `evalC1` and the zero dictionary the two stencils give
`(π/2)²` and `0` for the entry `(0, 1)`. -/
theorem QFI_claim_stencil_counterexample :
    QFImat evalC1 thetaZero2 0 1 ≠ QFIclaimStencil evalC1 thetaZero2 0 1 := by
  have hL : QFImat evalC1 thetaZero2 0 1 = Real.pi / 2 * (Real.pi / 2) := by
    rw [QFImat_apply, QFIcell_fst]
    simp only [shift2, shiftAt, evalC1, thetaZero2, Function.update_apply]
    norm_num
    ring
  have hR : QFIclaimStencil evalC1 thetaZero2 0 1 = 0 := by
    simp only [QFIclaimStencil, shift2, shiftAt, evalC1, thetaZero2,
      Function.update_apply]
    norm_num
  rw [hL, hR]
  have h := Real.pi_pos
  nlinarith

/-- C1, amended.  For every black-box overlap evaluator (measurement fixed
at the unshifted dictionary, only the rebound state shifted), every
dictionary and every ordered index pair, the metric-tensor entry is the
four-term parameter-shift stencil with weights `+¼` at `(+π/2, +π/2)`,
`-¼` at `(+π/2, -π/2)`, `-¼` at `(-π/2, +π/2)` and `+¼` at
`(-π/2, -π/2)` (the signs of the two `k: -π/2` terms are swapped relative
to the claim), the real part of each overlap being taken. -/
theorem QFI_entry_is_mixed_stencil {n : ℕ} (eval : (Fin n → ℝ) → ℂ)
    (θ : Fin n → ℝ) (k l : Fin n) :
    QFImat eval θ k l =
      (eval (shift2 θ k l (Real.pi / 2) (Real.pi / 2))).re / 4
        - (eval (shift2 θ k l (Real.pi / 2) (-(Real.pi / 2)))).re / 4
        - (eval (shift2 θ k l (-(Real.pi / 2)) (Real.pi / 2))).re / 4
        + (eval (shift2 θ k l (-(Real.pi / 2)) (-(Real.pi / 2)))).re / 4 := by
  rw [QFImat_apply, QFIcell_fst]
  ring

/-- C4.  `gradient(op, parameter_dict)` returns, in the dictionary's
parameter order, the components
`0.5 * (eval(θ with entry k shifted by +π/2) - eval(θ with entry k shifted by -π/2))`,
all other entries held at their input values in both evaluations. -/
theorem gradient_is_parameter_shift {n : ℕ} (eval : (Fin n → ℝ) → ℂ)
    (θ : Fin n → ℝ) :
    gradient eval θ = (List.finRange n).map fun k =>
      (0.5 : ℂ) * (eval (Function.update θ k (θ k + Real.pi / 2))
        - eval (Function.update θ k (θ k - Real.pi / 2))) := by
  rw [gradient, gradLoop_eq]
  refine List.map_congr_left fun k _ => ?_
  rw [gradStep_fst]
  simp only [shiftAt, sub_eq_add_neg]

/-- C5.  For an evaluator with the overlap properties a Pauli-rotation
ansatz guarantees — unit overlap at the unshifted dictionary, and purely
imaginary overlap whenever one component is shifted by `±π` (the rotation
generator has eigenvalues `±1/2`) — every diagonal metric-tensor entry is
exactly `-0.5`, independent of `θ` and of the observable. -/
theorem QFI_diagonal_neg_half {n : ℕ} (eval : (Fin n → ℝ) → ℂ)
    (θ : Fin n → ℝ) (h1 : eval θ = 1)
    (h2 : ∀ k, (eval (shiftAt k Real.pi θ)).re = 0)
    (h3 : ∀ k, (eval (shiftAt k (-Real.pi) θ)).re = 0) (k : Fin n) :
    QFImat eval θ k k = -(1 / 2) := by
  rw [QFImat_apply, QFIcell_fst]
  simp only [shift2, shiftAt_shiftAt]
  have c1 : Real.pi / 2 + Real.pi / 2 = Real.pi := by ring
  have c2 : Real.pi / 2 + -(Real.pi / 2) = 0 := by ring
  have c3 : -(Real.pi / 2) + -(Real.pi / 2) = -Real.pi := by ring
  have c4 : -(Real.pi / 2) + Real.pi / 2 = 0 := by ring
  rw [c1, c2, c3, c4, shiftAt_zero, h1, h2 k, h3 k]
  norm_num

/-- C5, witness: the `RX`-rotation overlap evaluator at the zero
dictionary satisfies the three hypotheses, and its diagonal metric-tensor
entry is `-0.5`. -/
theorem QFI_diagonal_neg_half_witness :
    (evalC5 thetaZero1 = 1
        ∧ (∀ k, (evalC5 (shiftAt k Real.pi thetaZero1)).re = 0)
        ∧ (∀ k, (evalC5 (shiftAt k (-Real.pi) thetaZero1)).re = 0))
      ∧ QFImat evalC5 thetaZero1 0 0 = -(1 / 2) := by
  have h1 : evalC5 thetaZero1 = 1 := by
    simp [evalC5, thetaZero1]
  have h2 : ∀ k, (evalC5 (shiftAt k Real.pi thetaZero1)).re = 0 := by
    intro k
    have hk : k = 0 := Subsingleton.elim k 0
    subst hk
    simp [evalC5, thetaZero1, shiftAt, Function.update_apply,
      Real.cos_pi_div_two]
  have h3 : ∀ k, (evalC5 (shiftAt k (-Real.pi) thetaZero1)).re = 0 := by
    intro k
    have hk : k = 0 := Subsingleton.elim k 0
    subst hk
    simp [evalC5, thetaZero1, shiftAt, Function.update_apply, neg_div,
      Real.cos_pi_div_two]
  exact ⟨⟨h1, h2, h3⟩, QFI_diagonal_neg_half evalC5 thetaZero1 h1 h2 h3 0⟩

/-- C2, counterexample.  On the grid `[0, 1/2, 1]` (three points, spacing
`1/2`) under the notebook's coupling `t = 1`, `num_time_steps = 3`, the
code performs three updates of size `t/num_time_steps = 1/3` — for the
identity natural-gradient black box and `θ = 1` it returns `(2/3)³ = 8/27`
— while one update per consecutive pair with the grid spacing (the claim)
gives `(1/2)² = 1/4`. -/
theorem propagate_grid_pair_counterexample :
    get_gibbs_state_params 1 3 qngId thetaOne1 [0, 1 / 2, 1]
      ≠ specPropagate qngId thetaOne1 [0, 1 / 2, 1] := by
  intro hEq
  have h := congrFun hEq 0
  simp only [get_gibbs_state_params, specPropagate, qngId, thetaOne1,
    List.foldl, Complex.ofReal_re] at h
  norm_num at h

/-- C2, amended.  The integrator performs exactly one explicit-Euler
update per grid point supplied (`n` updates for an `n`-point grid, the
grid values themselves never read), and every update replaces `θ` by
`θ - Δ · Re(natural_gradient)` with `Δ = t / num_time_steps` taken from
the ambient globals, not from the spacing of the supplied grid. -/
theorem propagate_is_iterated_euler {n : ℕ} (t : ℝ) (num_time_steps : ℕ)
    (qng : (Fin n → ℝ) → Fin n → ℂ) (θ : Fin n → ℝ) (time_steps : List ℝ) :
    get_gibbs_state_params t num_time_steps qng θ time_steps
      = (eulerStep (t / (num_time_steps : ℝ)) qng)^[time_steps.length] θ := by
  induction time_steps generalizing θ with
  | nil => rfl
  | cons a ts ih =>
    show get_gibbs_state_params t num_time_steps qng
      (eulerStep (t / (num_time_steps : ℝ)) qng θ) ts = _
    rw [List.length_cons, Function.iterate_succ_apply]
    exact ih _

/-- C10, counterexample.  `get_gibbs_state_params` reads the ambient
globals `t` and `num_time_steps`: with identical explicit arguments
(natural-gradient context, initial parameters, time grid) but ambient
`t = 1` versus `t = 2`, the returned parameter vectors differ
(`-1` versus `-2`). -/
theorem propagate_ambient_state_counterexample :
    get_gibbs_state_params 1 1 qngConst thetaZero1 [0]
      ≠ get_gibbs_state_params 2 1 qngConst thetaZero1 [0] := by
  intro hEq
  have h := congrFun hEq 0
  simp only [get_gibbs_state_params, qngConst, thetaZero1, List.foldl,
    Complex.one_re] at h
  norm_num at h

/-- C10, amended.  The result of `get_gibbs_state_params` is determined by
its explicit arguments together with the ambient globals `t` and
`num_time_steps`, and it depends on those globals only through the step
size `t / num_time_steps`: two runs with identical arguments whose ambient
configurations agree on that ratio return identical final parameters. -/
theorem propagate_determined_by_args_and_ratio {n : ℕ} (t t' : ℝ)
    (num_time_steps num_time_steps' : ℕ) (qng : (Fin n → ℝ) → Fin n → ℂ)
    (θ : Fin n → ℝ) (time_steps : List ℝ)
    (hΔ : t / (num_time_steps : ℝ) = t' / (num_time_steps' : ℝ)) :
    get_gibbs_state_params t num_time_steps qng θ time_steps
      = get_gibbs_state_params t' num_time_steps' qng θ time_steps := by
  rw [get_gibbs_state_params, get_gibbs_state_params, hΔ]

/-- C10, witness for the amended theorem: ambient `(t, num_time_steps)`
equal to `(1, 2)` and `(2, 4)` share the ratio `1/2` and yield the same
result. -/
theorem propagate_ratio_witness :
    ((1 : ℝ) / ((2 : ℕ) : ℝ) = (2 : ℝ) / ((4 : ℕ) : ℝ))
      ∧ get_gibbs_state_params 1 2 qngConst thetaZero1 [0]
        = get_gibbs_state_params 2 4 qngConst thetaZero1 [0] :=
  ⟨by norm_num,
    propagate_determined_by_args_and_ratio 1 2 2 4 qngConst thetaZero1 [0]
      (by norm_num)⟩

/-- C6.  The loss evaluation fails — the failure propagating to the
caller as `none` rather than any value being returned — whenever some
entry of the model probability vector is `≤ 0`, with no special-casing of
that condition. -/
theorem loss_fails_on_nonpositive_probability {m : ℕ}
    (p_target p_qbm : Fin m → ℝ) (h : ∃ r, p_qbm r ≤ 0) :
    loss p_target p_qbm = none := by
  obtain ⟨r, hr⟩ := h
  rw [loss, if_neg]
  intro hall
  exact absurd (hall r) (not_lt.mpr hr)

/-- C6, witness: the vector `pModelZero` has an entry `≤ 0` and the loss
evaluation on it fails. -/
theorem loss_fails_witness :
    (∃ r, pModelZero r ≤ 0) ∧ loss pTargetQBM pModelZero = none :=
  ⟨⟨1, by norm_num [pModelZero]⟩,
    loss_fails_on_nonpositive_probability pTargetQBM pModelZero
      ⟨1, by norm_num [pModelZero]⟩⟩

/-- C7, counterexample.  A parameter vector of length 2 bound to a
one-parameter ansatz does **not** fail: `zip` silently drops the extra
value and evaluation produces a value. -/
theorem dimension_mismatch_counterexample :
    [(1 : ℝ), 2].length ≠ 1 ∧ bindEval fC7 [(1 : ℝ), 2] ≠ none := by
  refine ⟨by simp, ?_⟩
  rw [bindEval, dif_pos (by norm_num : (1 : ℕ) ≤ [(1 : ℝ), 2].length)]
  exact Option.some_ne_none _

/-- C7, amended.  Binding-and-evaluating fails exactly when the supplied
parameter vector is **shorter** than the ansatz's free-parameter count
(unbound parameters); when it is at least as long, `zip` silently
truncates it and evaluation proceeds on the first `n` values. -/
theorem bindEval_fails_iff_too_short {n : ℕ} (f : (Fin n → ℝ) → ℂ)
    (param_values : List ℝ) :
    (bindEval f param_values = none ↔ param_values.length < n)
      ∧ ∀ h : n ≤ param_values.length,
          bindEval f param_values
            = some (f fun k => param_values.get ⟨k.1, lt_of_lt_of_le k.2 h⟩) := by
  refine ⟨⟨?_, ?_⟩, ?_⟩
  · intro hnone
    by_contra hlen
    push_neg at hlen
    rw [bindEval, dif_pos hlen] at hnone
    exact Option.some_ne_none _ hnone
  · intro hlt
    rw [bindEval, dif_neg (not_le.mpr hlt)]
  · intro h
    rw [bindEval, dif_pos h]

/-- C7, witness for the amended theorem: the empty parameter vector is too
short for a one-parameter ansatz and evaluation fails. -/
theorem bindEval_too_short_witness :
    ([] : List ℝ).length < 1 ∧ bindEval fC7 [] = none :=
  ⟨by decide, (bindEval_fails_iff_too_short fC7 []).1.mpr (by decide)⟩

/-- C8.  `gradient` and `QFI` leave every entry of the parameter
dictionary at its value before the call, and each loop pass (each
parameter for `gradient`, each ordered index pair for `QFI`, the diagonal
pair included) restores the dictionary before the next one is
processed. -/
theorem gradient_QFI_restore_dictionary {n : ℕ}
    (evalG evalQ : (Fin n → ℝ) → ℂ) (θ : Fin n → ℝ) :
    gradientDictAfter evalG θ = θ ∧ QFIdictAfter evalQ θ = θ
      ∧ (∀ k, (gradStep evalG θ k).2 = θ)
      ∧ ∀ i j, (QFIcell evalQ θ i j).2 = θ := by
  refine ⟨?_, ?_, fun k => gradStep_snd evalG θ k,
    fun i j => QFIcell_snd evalQ θ i j⟩
  · rw [gradientDictAfter, gradLoop_eq]
  · rw [QFIdictAfter, QFI, QFIfold_snd]

theorem sq_sum_nonpos (u v : ℝ) (h : u ^ 2 + v ^ 2 ≤ 0) : u = 0 ∧ v = 0 := by
  constructor <;> nlinarith [sq_nonneg u, sq_nonneg v]

/-- `lstsqDim1` satisfies the minimum-norm least-squares semantics on 1×1
systems (singular ones included). -/
theorem lstsqDim1_is_minNormLS (A : Matrix (Fin 1) (Fin 1) ℝ)
    (g : Fin 1 → ℝ) : IsMinNormLS A g (lstsqDim1 A g) := by
  have herr : ∀ x : Fin 1 → ℝ, lsErr A g x = (A 0 0 * x 0 - g 0) ^ 2 := by
    intro x
    rw [lsErr, Fin.sum_univ_one]
    simp [Matrix.mulVec, Matrix.dotProduct, Fin.sum_univ_one]
  have hnorm : ∀ x : Fin 1 → ℝ, sqNorm x = x 0 ^ 2 := by
    intro x
    rw [sqNorm, Fin.sum_univ_one]
  by_cases hA : A 0 0 = 0
  · constructor
    · intro y
      rw [herr, herr, hA]
      simp
    · intro y _
      rw [hnorm, hnorm]
      have h0 : lstsqDim1 A g 0 = 0 := by rw [lstsqDim1, if_pos hA]
      rw [h0]
      simpa using sq_nonneg (y 0)
  · have hx0 : lstsqDim1 A g 0 = g 0 / A 0 0 := by rw [lstsqDim1, if_neg hA]
    have hxerr : lsErr A g (lstsqDim1 A g) = 0 := by
      rw [herr, hx0, mul_comm, div_mul_cancel₀ _ hA]
      simp
    constructor
    · intro y
      rw [hxerr, herr]
      positivity
    · intro y hy
      have h1 : lsErr A g y ≤ 0 := hxerr ▸ hy (lstsqDim1 A g)
      rw [herr] at h1
      have h3 : A 0 0 * y 0 - g 0 = 0 := by
        nlinarith [sq_nonneg (A 0 0 * y 0 - g 0)]
      have h4 : y 0 = g 0 / A 0 0 := by
        field_simp
        linarith
      rw [hnorm, hnorm, hx0, h4]

/-- C3, counterexample.  For `M = [[1, 0], [0, 2]]` and `g = (1, 0)`, no
vector is simultaneously a minimum-norm least-squares solution of the
system the code passes to `np.linalg.lstsq` (whose matrix is
`M + α · diag(M)` with the diagonal vector broadcast across rows, so entry
`(0, 1)` becomes `2α ≠ 0`) and of the system the claim describes (off-
diagonal entries unchanged): both regularized matrices are invertible and
their unique solutions differ, so what `QNG` returns cannot satisfy the
claim. -/
theorem QNG_diagonal_only_regularizer_counterexample :
    ¬ ∃ x : Fin 2 → ℝ,
        IsMinNormLS (regCode MdiagC3) gC3 x
          ∧ IsMinNormLS (regSpec MdiagC3) gC3 x := by
  rintro ⟨x, ⟨hc, _⟩, ⟨hs, _⟩⟩
  have hcode : ∀ u : Fin 2 → ℝ, lsErr (regCode MdiagC3) gC3 u
      = ((1 + alphaReg) * u 0 + alphaReg * 2 * u 1 - 1) ^ 2
        + (alphaReg * u 0 + (2 + alphaReg * 2) * u 1) ^ 2 := by
    intro u
    rw [lsErr, Fin.sum_univ_two]
    simp [Matrix.mulVec, Matrix.dotProduct, Fin.sum_univ_two, regCode,
      MdiagC3, gC3]
  have hspec : ∀ u : Fin 2 → ℝ, lsErr (regSpec MdiagC3) gC3 u
      = ((1 + alphaReg) * u 0 - 1) ^ 2 + ((2 + alphaReg * 2) * u 1) ^ 2 := by
    intro u
    rw [lsErr, Fin.sum_univ_two]
    simp [Matrix.mulVec, Matrix.dotProduct, Fin.sum_univ_two, regSpec,
      MdiagC3, gC3]
  have hyc : lsErr (regCode MdiagC3) gC3
      ![(2 + 2 * alphaReg) / (2 + 4 * alphaReg), -alphaReg / (2 + 4 * alphaReg)]
        = 0 := by
    rw [hcode]
    norm_num [alphaReg]
  have hzc : lsErr (regSpec MdiagC3) gC3 ![1 / (1 + alphaReg), 0] = 0 := by
    rw [hspec]
    norm_num [alphaReg]
  have hxc := hc ![(2 + 2 * alphaReg) / (2 + 4 * alphaReg),
    -alphaReg / (2 + 4 * alphaReg)]
  rw [hyc, hcode] at hxc
  have hxs := hs ![1 / (1 + alphaReg), 0]
  rw [hzc, hspec] at hxs
  obtain ⟨e1, e2⟩ := sq_sum_nonpos _ _ hxc
  obtain ⟨f1, f2⟩ := sq_sum_nonpos _ _ hxs
  rw [alphaReg] at e1 e2 f1 f2
  norm_num at e1 e2 f1 f2
  have hx1 : x 1 = 0 := by linarith
  have hx0 : x 0 = 0 := by linarith
  rw [hx0] at f1
  norm_num at f1

/-- C3, amended.  `QNG` hands the library solver the broadcast-regularized
matrix whose entry `(i, j)` is `M[i][j] + α · M[j][j]` — every entry of
column `j` gains `α · M[j][j]`, the diagonal gaining `α · M[i][i]` exactly
as the claim says, but the off-diagonal entries change too — and, by the
solver's documented semantics, returns a minimum-norm least-squares
solution of that system (the minimum-norm choice covering under-determined
systems, with no failure raised). -/
theorem QNG_solves_broadcast_regularized_system {n : ℕ}
    (lstsq : Matrix (Fin n) (Fin n) ℝ → (Fin n → ℝ) → (Fin n → ℝ))
    (hsolver : ∀ A g, IsMinNormLS A g (lstsq A g)) (g : Fin n → ℝ)
    (M : Matrix (Fin n) (Fin n) ℝ) :
    IsMinNormLS (regCode M) g (QNG lstsq g M)
      ∧ (∀ i j, regCode M i j = M i j + alphaReg * M j j)
      ∧ ∀ i, regCode M i i = (1 + alphaReg) * M i i := by
  refine ⟨hsolver _ _, fun i j => rfl, fun i => ?_⟩
  show M i i + alphaReg * M i i = (1 + alphaReg) * M i i
  ring

/-- C3, witness for the amended theorem: the concrete 1×1 solver
`lstsqDim1` satisfies the solver semantics, and `QNG` built on it returns
a minimum-norm least-squares solution of the broadcast-regularized
system for `M = [[2]]`, `g = (3)`. -/
theorem QNG_broadcast_witness :
    (∀ A g, IsMinNormLS A g (lstsqDim1 A g))
      ∧ IsMinNormLS (regCode MdimW) gdimW (QNG lstsqDim1 gdimW MdimW) :=
  ⟨lstsqDim1_is_minNormLS,
    (QNG_solves_broadcast_regularized_system lstsqDim1 lstsqDim1_is_minNormLS
      gdimW MdimW).1⟩

/-- C9.  The returned metric tensor is a real matrix and is symmetric:
although every ordered pair gets its own four-evaluation stencil, the four
shifted dictionaries of the pair `(l, k)` are those of `(k, l)` with the
same accumulation signs, so the entries agree exactly for every evaluator
and every dictionary. -/
theorem QFI_symmetric {n : ℕ} (eval : (Fin n → ℝ) → ℂ) (θ : Fin n → ℝ)
    (k l : Fin n) : QFImat eval θ k l = QFImat eval θ l k := by
  rw [QFImat_apply, QFImat_apply, QFIcell_fst, QFIcell_fst,
    shift2_swap θ k l (Real.pi / 2) (Real.pi / 2),
    shift2_swap θ k l (Real.pi / 2) (-(Real.pi / 2)),
    shift2_swap θ k l (-(Real.pi / 2)) (-(Real.pi / 2)),
    shift2_swap θ k l (-(Real.pi / 2)) (Real.pi / 2)]
  ring

end VarQITE
